import Mathlib

/-!
Verification of the PaddleOCR web service (`app.py`) against its
natural-language specification.  The Python source is shallowly embedded:
pure helper functions become Lean functions on `String` / `List Char`,
Python `float` scores become `ℚ` (the claims under study only depend on
zero-vs-nonzero and defaulting logic, never on rounding), the filesystem of
scratch uploads becomes a `Finset String` of paths, and exceptions become
`Except` values.
-/

namespace PaddleOCRService

/-! ## Definitions: shallow embedding of `app.py` -/

/-- The six ASCII whitespace characters: exactly the regex class `\s` in
ASCII mode.  (Python's `str.strip` and Unicode `\s` additionally match rare
Unicode space characters, which the embedding leaves out.) -/
def pyIsSpace (c : Char) : Bool :=
  c = ' ' || c = '\t' || c = '\n' || c = '\r' || c = '\x0b' || c = '\x0c'

/-- Python `str.strip()` on a character list: drop whitespace from both ends. -/
def pyStrip (l : List Char) : List Char :=
  ((l.dropWhile pyIsSpace).reverse.dropWhile pyIsSpace).reverse

/-- Prepend a character to the first chunk of a split result. -/
def consFirst (c : Char) : List (List Char) → List (List Char)
  | [] => [[c]]
  | r :: rs => (c :: r) :: rs

/-- Python `str.split(sep)` for a single-character separator: split at every
occurrence of `sep`, keeping empty chunks (the result always has at least
one element). -/
def pySplitChar (sep : Char) : List Char → List (List Char)
  | [] => [[]]
  | c :: cs =>
    if c = sep then [] :: pySplitChar sep cs
    else consFirst c (pySplitChar sep cs)

/-- If `sep` is a leading fragment of `s`, return the remainder of `s`. -/
def dropSep : List Char → List Char → Option (List Char)
  | [], s => some s
  | _ :: _, [] => none
  | a :: as, b :: bs => if a = b then dropSep as bs else none

/-- Locate the first occurrence of `sep` in `s`, returning the characters
before it and the characters after it. -/
def splitFirst (sep : List Char) : List Char → Option (List Char × List Char)
  | [] => (dropSep sep []).map (fun r => ([], r))
  | c :: cs =>
    match dropSep sep (c :: cs) with
    | some r => some ([], r)
    | none => (splitFirst sep cs).map (fun p => (c :: p.1, p.2))

/-- Fuel-driven worker for `pySplitStr`: repeatedly cut at the first
occurrence of `sep`.  For a non-empty `sep`, `s.length + 1` fuel always
suffices, because each cut strictly shrinks the remaining text. -/
def splitFuel : Nat → List Char → List Char → List (List Char)
  | 0, _, s => [s]
  | fuel + 1, sep, s =>
    match splitFirst sep s with
    | none => [s]
    | some p => p.1 :: splitFuel fuel sep p.2

/-- Python `str.split(sep)` for a general non-empty separator string.
(Python raises `ValueError` on an empty separator; the `sep = []` branch is
never reached by the service, which only passes non-empty delimiters.) -/
def pySplitStr (sep s : List Char) : List (List Char) :=
  if sep = [] then [s] else splitFuel (s.length + 1) sep s

/-- One-pass scanner for `re.split(r'\s{2,}', s)`.  `pend` buffers the
current (reversed) whitespace run, `field` the current (reversed) fragment,
`acc` the completed fragments in reverse order.  A buffered run of length at
least two is a separator (the regex is greedy, so a match consumes a whole
maximal run); a run of length one stays literal text. -/
def runsScan (pend field : List Char) (acc : List (List Char)) :
    List Char → List (List Char)
  | [] =>
    if pend.length ≥ 2 then acc.reverse ++ [field.reverse, []]
    else acc.reverse ++ [(pend ++ field).reverse]
  | c :: cs =>
    if pyIsSpace c then runsScan (c :: pend) field acc cs
    else
      if pend.length ≥ 2 then runsScan [] [c] (field.reverse :: acc) cs
      else runsScan [] (c :: (pend ++ field)) acc cs

/-- `re.split(r'\s{2,}', s)`: split at every maximal run of two or more
whitespace characters. -/
def splitRuns (s : List Char) : List (List Char) :=
  runsScan [] [] [] s

/-- One-pass scanner for `len(re.findall(r'\s{2,}', s))`. -/
def countScan (pend : List Char) (acc : Nat) : List Char → Nat
  | [] => if pend.length ≥ 2 then acc + 1 else acc
  | c :: cs =>
    if pyIsSpace c then countScan (c :: pend) acc cs
    else
      if pend.length ≥ 2 then countScan [] (acc + 1) cs
      else countScan [] acc cs

/-- `len(re.findall(r'\s{2,}', s))`: the number of maximal whitespace runs
of length at least two. -/
def countRuns (s : List Char) : Nat :=
  countScan [] 0 s

/-- `ALLOWED_IMAGE_EXTENSIONS` from the source. -/
def allowed_image_extensions : List String :=
  [".png", ".jpg", ".jpeg", ".bmp", ".gif", ".webp", ".tiff", ".tif"]

/-- `ALLOWED_PDF_EXTENSIONS` from the source. -/
def allowed_pdf_extensions : List String := [".pdf"]

/-- `ALLOWED_EXTENSIONS = ALLOWED_IMAGE_EXTENSIONS | ALLOWED_PDF_EXTENSIONS`.
(The Python value is a set; a list with the literal order stands in for it,
and no claim depends on the iteration order.) -/
def allowed_extensions : List String :=
  allowed_image_extensions ++ allowed_pdf_extensions

/-- POSIX `PurePath(s).name`: the last path component, after dropping empty
and `'.'` components. -/
def pathName (s : String) : String :=
  let comps := (pySplitChar '/' s.data).filter
    (fun p => !p.isEmpty && !(p == ['.']))
  match comps.getLast? with
  | some p => ⟨p⟩
  | none => ""

/-- `Path(s).suffix`: the extension of the final component.  CPython returns
`name[i:]` where `i` is the index of the last dot, provided `0 < i < len(name) - 1`,
and `''` otherwise. -/
def pySuffix (s : String) : String :=
  let name := (pathName s).data
  if '.' ∈ name then
    let after := name.reverse.takeWhile (fun c => c ≠ '.')
    if after.length ≠ 0 ∧ after.length < name.length - 1 then
      ⟨'.' :: after.reverse⟩
    else ""
  else ""

/-- Python `str.lower()` (ASCII case mapping suffices for the extension set). -/
def pyLower (s : String) : String := ⟨s.data.map Char.toLower⟩

/-- `validate_file(filename)` from the source: reject an empty name, then
extract the lowercase extension and check membership in `ALLOWED_EXTENSIONS`;
report failure as data, never by raising. -/
def validate_file (filename : String) : Bool × String :=
  if filename = "" then (false, "未提供檔案名稱")
  else
    let ext := pyLower (pySuffix filename)
    if ext ∈ allowed_extensions then (true, ext)
    else (false, "不支援的檔案格式: " ++ ext ++ "。支援格式: " ++
      String.intercalate ", " allowed_extensions)

/-- One recognition item `{text, confidence, bbox}` (Python `float`s become
`ℚ`; no claim depends on rounding). -/
structure OCRItem where
  text : String
  confidence : ℚ
  bbox : List (List ℚ)
deriving DecidableEq

/-- The quadruple returned by `convert_to_table`:
`(csv_content, markdown_table, row_count, col_count)`. -/
structure TableOut where
  csv : String
  md : String
  rows : Nat
  cols : Nat
deriving DecidableEq

/-- `lines = [r['text'] for r in ocr_results if r.get('text')]`. -/
def collectedLines (res : List OCRItem) : List String :=
  (res.map (fun r => r.text)).filter (fun t => !(t == ""))

/-- Tab characters summed over all lines (`sum(line.count('\t') ...)`). -/
def tabTotal (lines : List String) : Nat :=
  (lines.map (fun l => l.data.count '\t')).sum

/-- Commas summed over all lines (`sum(line.count(',') ...)`). -/
def commaTotal (lines : List String) : Nat :=
  (lines.map (fun l => l.data.count ',')).sum

/-- Multi-space runs summed over all lines
(`sum(len(re.findall(r'\s{2,}', line)) ...)`). -/
def spaceTotal (lines : List String) : Nat :=
  (lines.map (fun l => countRuns l.data)).sum

/-- The `delimiter == "auto"` detection block.  The integer comparisons
`2*count > n` and `10*count > 3*n` mirror the source's float comparisons
`count > n*0.5` and `count > n*0.3`; for the former the two are equal, and
the latter guards two branches that both produce `"space"`, so any float
rounding of `0.3` cannot change the result. -/
def autoDelim (lines : List String) : String :=
  if 2 * tabTotal lines > lines.length then "\t"
  else if 2 * commaTotal lines > lines.length then ","
  else if 10 * spaceTotal lines > 3 * lines.length then "space"
  else "space"

/-- The per-line delimiter dispatch of the parsing loop. -/
def splitCells (delim line : String) : List (List Char) :=
  if delim = "space" then splitRuns (pyStrip line.data)
  else if delim = "tab" then pySplitChar '\t' line.data
  else if delim = "comma" then pySplitChar ',' line.data
  else pySplitStr delim.data line.data

/-- The per-line cell extraction: split on the resolved delimiter, strip
each cell, and drop cells that are empty after stripping. -/
def cellsOfLine (delim line : String) : List String :=
  (((splitCells delim line).map pyStrip).filter (fun c => !c.isEmpty)).map
    (fun c => (⟨c⟩ : String))

/-- The `table_data` accumulation loop: a line contributes a row only when
its extracted cell list is non-empty. -/
def buildRows (delim : String) (lines : List String) : List (List String) :=
  lines.filterMap (fun line =>
    let cells := cellsOfLine delim line
    if cells = [] then none else some cells)

/-- `max_cols`, accumulated with `max` over the rows. -/
def maxColsOf (rows : List (List String)) : Nat :=
  rows.foldl (fun m r => max m r.length) 0

/-- Pad one row with empty-string cells up to width `n`. -/
def padRow (n : Nat) (row : List String) : List String :=
  row ++ List.replicate (n - row.length) ""

/-- The padding loop: every row padded to the maximum observed width. -/
def padAll (g : List (List String)) : List (List String) :=
  g.map (padRow (maxColsOf g))

/-- `delimiter` after the auto-detection step. -/
def resolvedDelim (res : List OCRItem) (delim : String) : String :=
  if delim = "auto" then autoDelim (collectedLines res) else delim

/-- `QUOTE_MINIMAL`: a field is quoted iff it contains the delimiter, the
quote character, or a line-terminator character. -/
def needsQuote (f : List Char) : Bool :=
  f.any (fun c => c == ',' || c == '\"' || c == '\r' || c == '\n')

/-- Double every quote character. -/
def escQuotes : List Char → List Char
  | [] => []
  | c :: cs =>
    if c = '\"' then '\"' :: '\"' :: escQuotes cs else c :: escQuotes cs

/-- Encode one CSV field. -/
def encField (f : String) : List Char :=
  if needsQuote f.data then '\"' :: (escQuotes f.data ++ ['\"']) else f.data

/-- Join encoded fields with the comma delimiter. -/
def joinComma : List (List Char) → List Char
  | [] => []
  | [f] => f
  | f :: fs => f ++ ',' :: joinComma fs

/-- Write one CSV record, terminated by `\r\n`. -/
def writeRow (r : List String) : List Char :=
  joinComma (r.map encField) ++ ['\r', '\n']

/-- `csv.writer(...).writerows(table_data)` followed by `getvalue()`. -/
def csvWrite (rows : List (List String)) : String :=
  ⟨(rows.map writeRow).flatten⟩

/-- `"| " + " | ".join(row) + " |"`. -/
def mdRow (r : List String) : String :=
  "| " ++ String.intercalate " | " r ++ " |"

/-- The Markdown table: header row, separator row of `---` sized to
`max_cols`, then the remaining rows; lines joined by `\n`. -/
def mdTable (rows : List (List String)) (maxCols : Nat) : String :=
  match rows with
  | [] => ""
  | r0 :: rest =>
    String.intercalate "\n"
      (mdRow r0 :: mdRow (List.replicate maxCols "---") :: rest.map mdRow)

/-- `convert_to_table(ocr_results, delimiter)` from the source. -/
def convert_to_table (res : List OCRItem) (delimiter : String) : TableOut :=
  if res = [] then ⟨"", "", 0, 0⟩
  else
    let lines := collectedLines res
    if lines = [] then ⟨"", "", 0, 0⟩
    else
      let d := if delimiter = "auto" then autoDelim lines else delimiter
      let td := buildRows d lines
      if td = [] then ⟨"", "", 0, 0⟩
      else
        let padded := padAll td
        ⟨csvWrite padded, mdTable padded (maxColsOf td),
          padded.length, maxColsOf td⟩

/-- The padded grid that `convert_to_table` serialises (empty when any of
its early-return guards fire). -/
def tableGrid (res : List OCRItem) (delimiter : String) : List (List String) :=
  if res = [] then []
  else
    let lines := collectedLines res
    if lines = [] then []
    else
      let d := if delimiter = "auto" then autoDelim lines else delimiter
      let td := buildRows d lines
      if td = [] then [] else padAll td

/-- `convert_text_to_table`: build fake OCR items from the non-blank lines
of the stripped input text, then delegate to `convert_to_table`. -/
def convert_text_to_table (text : String) (delimiter : String) : TableOut :=
  let lines := pySplitChar '\n' (pyStrip text.data)
  let ocr := (lines.filter (fun l => !(pyStrip l).isEmpty)).map
    (fun l => ({ text := ⟨l⟩, confidence := 1, bbox := [] } : OCRItem))
  convert_to_table ocr delimiter

/-- Close the current field and row into a record (fields are accumulated
in reverse). -/
def recordOf (field : List Char) (row : List String) : List String :=
  ((⟨field.reverse⟩ : String) :: row).reverse

/-- Parser state for the streaming CSV reader: outside quotes, inside a
quoted field, just after a quote inside a quoted field (escape or close),
or just after a carriage return (an optional line feed follows). -/
inductive CsvMode where
  | plain
  | quoted
  | quoteSeen
  | crSeen

/-- A standard streaming CSV parser (comma delimiter, double-quote quoting
with doubled quotes as escapes, `\r\n` / `\n` / `\r` record ends).
`field` holds the current field reversed, `row` the current record's fields
reversed, `acc` the completed records reversed. -/
def csvScan : CsvMode → List Char → List String → List (List String) →
    List Char → List (List String)
  | .plain, field, row, acc, [] =>
    if field = [] ∧ row = [] then acc.reverse
    else (recordOf field row :: acc).reverse
  | .crSeen, _, _, acc, [] => acc.reverse
  | .quoted, field, row, acc, [] => (recordOf field row :: acc).reverse
  | .quoteSeen, field, row, acc, [] => (recordOf field row :: acc).reverse
  | .quoted, field, row, acc, c :: cs =>
    if c = '\"' then csvScan .quoteSeen field row acc cs
    else csvScan .quoted (c :: field) row acc cs
  | .quoteSeen, field, row, acc, c :: cs =>
    if c = '\"' then csvScan .quoted ('\"' :: field) row acc cs
    else if c = ',' then
      csvScan .plain [] ((⟨field.reverse⟩ : String) :: row) acc cs
    else if c = '\r' then
      csvScan .crSeen [] [] (recordOf field row :: acc) cs
    else if c = '\n' then
      csvScan .plain [] [] (recordOf field row :: acc) cs
    else csvScan .plain (c :: field) row acc cs
  | .crSeen, _, _, acc, c :: cs =>
    if c = '\n' then csvScan .plain [] [] acc cs
    else if c = '\"' then csvScan .quoted [] [] acc cs
    else if c = ',' then csvScan .plain [] [""] acc cs
    else if c = '\r' then csvScan .crSeen [] [] (recordOf [] [] :: acc) cs
    else csvScan .plain [c] [] acc cs
  | .plain, field, row, acc, c :: cs =>
    if c = '\"' ∧ field = [] then csvScan .quoted field row acc cs
    else if c = ',' then
      csvScan .plain [] ((⟨field.reverse⟩ : String) :: row) acc cs
    else if c = '\r' then
      csvScan .crSeen [] [] (recordOf field row :: acc) cs
    else if c = '\n' then
      csvScan .plain [] [] (recordOf field row :: acc) cs
    else csvScan .plain (c :: field) row acc cs

/-- Parse a CSV document under standard quoting and escaping rules. -/
def csvParse (s : String) : List (List String) :=
  csvScan .plain [] [] [] s.data

/-- The normalisation loop of `process_image_ocr` over the extracted
parallel arrays (`for i, text in enumerate(texts)`): keep truthy texts
only; `scores[i] if i < len(scores) else 1.0` then
`float(score) if score else 1.0`; `boxes[i] if i < len(boxes) else []`
(geometry already a plain nested list). -/
def process_found_results (texts : List String) (scores : List ℚ)
    (boxes : List (List (List ℚ))) : List OCRItem :=
  texts.enum.filterMap (fun p =>
    if p.2 = "" then none
    else
      let score := scores.getD p.1 1
      let bbox := boxes.getD p.1 []
      some ⟨p.2, if score ≠ 0 then score else 1, bbox⟩)

/-- Claim-side description of the confidence at index `i`: the score when
the score array reaches `i` (with zero replaced by 1.0), else the
default 1.0. -/
def specConfidence (scores : List ℚ) (i : Nat) : ℚ :=
  if i < scores.length then
    (if scores.getD i 1 = 0 then 1 else scores.getD i 1)
  else 1

/-- Claim-side description of the bbox at index `i`: the geometry when
present, else the empty sequence. -/
def specBbox (boxes : List (List (List ℚ))) (i : Nat) : List (List ℚ) :=
  if i < boxes.length then boxes.getD i [] else []

/-- One entry of the batch response's `results` array. -/
structure BatchItem (D : Type) where
  filename : String
  success : Bool
  data : Option D
  error : Option String
deriving DecidableEq

/-- The batch response: `{success, total, processed, results}`. -/
structure BatchOut (D : Type) where
  success : Bool
  total : Nat
  processed : Nat
  results : List (BatchItem D)
deriving DecidableEq

/-- `ocr_batch`: delegate each file sequentially to the single-file OCR
path (abstracted as `recognize`; `Except.error` carries the string that the
handler records, covering both `HTTPException.detail` and `str(e)`),
recording per-item success or failure without aborting the loop;
`processed` counts the successful entries. -/
def ocr_batch {F D : Type} (filenameOf : F → String)
    (recognize : F → Except String D) (files : List F) : BatchOut D :=
  let results := files.map (fun f =>
    match recognize f with
    | .ok d => (⟨filenameOf f, true, some d, none⟩ : BatchItem D)
    | .error e => ⟨filenameOf f, false, none, some e⟩)
  ⟨true, files.length, (results.filter (fun r => r.success)).length,
    results⟩

/-- Delegate used by the C5 witness: the middle file is corrupt. -/
def demoRecognize (f : String) : Except String Nat :=
  if f = "b" then .error "corrupt" else .ok 7

/-- The uniform error envelope rendered by `http_exception_handler`. -/
structure ErrorBody where
  success : Bool
  error : String
  status_code : Nat
deriving DecidableEq

/-- `http_exception_handler`: `{success: false, error: detail,
status_code}`. -/
def http_exception_handler (status : Nat) (detail : String) : ErrorBody :=
  { success := false, error := detail, status_code := status }

/-- Outcome of one file-accepting endpoint run: the HTTP result (`Except`
carries `(status_code, detail)` of a raised `HTTPException`), the scratch
directory contents after the handler, and whether OCR processing ran. -/
structure HandlerOut (A : Type) where
  result : Except (Nat × String) A
  fs : Finset String
  ocrInvoked : Bool

/-- Common shape of `ocr_recognize` and `ocr_to_table`: validate the
filename (raise 400 before writing anything), write the upload to
`f"{file_id}{file_ext}"`, run the OCR body (`proc`), wrap a processing
exception into a 500 with the endpoint's message, and in every case run the
`finally` block `if temp_path.exists(): temp_path.unlink()`. -/
def file_endpoint_model {A : Type} (wrapMsg : String) (fs0 : Finset String)
    (filename fileId : String) (proc : Except String A) : HandlerOut A :=
  if ¬ (validate_file filename).1 then
    ⟨.error (400, (validate_file filename).2), fs0, false⟩
  else
    let path := fileId ++ (validate_file filename).2
    let fs1 := insert path fs0
    match proc with
    | .ok a => ⟨.ok a, if path ∈ fs1 then fs1.erase path else fs1, true⟩
    | .error e =>
      ⟨.error (500, wrapMsg ++ e),
        if path ∈ fs1 then fs1.erase path else fs1, true⟩

/-- `POST /api/ocr` (`ocr_recognize`). -/
def ocr_recognize_model {A : Type} : Finset String → String → String →
    Except String A → HandlerOut A :=
  file_endpoint_model "OCR 處理失敗: "

/-- `POST /api/ocr/table` (`ocr_to_table`). -/
def ocr_to_table_model {A : Type} : Finset String → String → String →
    Except String A → HandlerOut A :=
  file_endpoint_model "表格轉換失敗: "

/-! ## Theorems -/

theorem dropWhile_length_le {α : Type} (p : α → Bool) (l : List α) :
    (l.dropWhile p).length ≤ l.length := by
  induction l with
  | nil => simp
  | cons a t ih =>
    by_cases h : p a = true
    · rw [List.dropWhile_cons_of_pos h]
      simp only [List.length_cons]
      omega
    · rw [List.dropWhile_cons_of_neg h]

theorem dropSep_length {sep s r : List Char} (h : dropSep sep s = some r) :
    sep.length + r.length = s.length := by
  induction sep generalizing s with
  | nil => simp [dropSep] at h; simp [h]
  | cons a as ih =>
    cases s with
    | nil => simp [dropSep] at h
    | cons b bs =>
      simp only [dropSep] at h
      split at h
      · have := ih h
        simp only [List.length_cons]
        omega
      · exact absurd h (by simp)

theorem splitFirst_length {sep s : List Char} {p : List Char × List Char}
    (h : splitFirst sep s = some p) :
    p.1.length + sep.length + p.2.length = s.length := by
  induction s generalizing p with
  | nil =>
    simp only [splitFirst, Option.map_eq_some'] at h
    obtain ⟨r, hr, hp⟩ := h
    have := dropSep_length hr
    subst hp
    simpa using this
  | cons c cs ih =>
    rw [splitFirst] at h
    cases hds : dropSep sep (c :: cs) with
    | some r =>
      rw [hds] at h
      simp only [Option.some.injEq] at h
      subst h
      have := dropSep_length hds
      simpa using this
    | none =>
      rw [hds] at h
      simp only [Option.map_eq_some'] at h
      obtain ⟨q, hq, hp⟩ := h
      have := ih hq
      subst hp
      simp only [List.length_cons]
      omega

theorem splitFuel_fuel_irrel (sep : List Char) (hsep : sep ≠ []) :
    ∀ f1 f2 s, s.length < f1 → s.length < f2 →
      splitFuel f1 sep s = splitFuel f2 sep s := by
  intro f1
  induction f1 with
  | zero => intro f2 s h1; omega
  | succ g1 ih =>
    intro f2 s h1 h2
    cases f2 with
    | zero => omega
    | succ g2 =>
      simp only [splitFuel]
      cases hf : splitFirst sep s with
      | none => rfl
      | some p =>
        have hlen := splitFirst_length hf
        have hsl : 1 ≤ sep.length := by
          cases sep with
          | nil => exact absurd rfl hsep
          | cons a as => simp
        have : p.2.length < s.length := by omega
        show p.1 :: splitFuel g1 sep p.2 = p.1 :: splitFuel g2 sep p.2
        rw [ih g2 p.2 (by omega) (by omega)]

theorem validate_file_of_mem (fn : String) (hne : fn ≠ "")
    (hmem : pyLower (pySuffix fn) ∈ allowed_extensions) :
    validate_file fn = (true, pyLower (pySuffix fn)) := by
  simp [validate_file, if_neg hne, if_pos hmem]

theorem validate_file_msg_infix (fn : String) (hne : fn ≠ "")
    (hmem : pyLower (pySuffix fn) ∉ allowed_extensions) :
    ∃ a b : String, (validate_file fn).2 = a ++ pyLower (pySuffix fn) ++ b := by
  refine ⟨"不支援的檔案格式: ",
    "。支援格式: " ++ String.intercalate ", " allowed_extensions, ?_⟩
  simp only [validate_file, if_neg hne, if_neg hmem]
  simp [String.append_assoc]

/-- C2: validation of an empty filename fails; a filename whose extracted
lowercase extension belongs to the allow-set validates successfully and
returns that extension; any other filename fails validation, with the
returned message (data, not an exception) naming the rejected extension. -/
theorem validate_file_spec :
    (∀ fn : String, fn = "" → (validate_file fn).1 = false) ∧
    (∀ fn : String, fn ≠ "" → pyLower (pySuffix fn) ∈ allowed_extensions →
      validate_file fn = (true, pyLower (pySuffix fn))) ∧
    (∀ fn : String, pyLower (pySuffix fn) ∉ allowed_extensions →
      (validate_file fn).1 = false ∧
      (fn ≠ "" → ∃ a b : String,
        (validate_file fn).2 = a ++ pyLower (pySuffix fn) ++ b)) := by
  refine ⟨?_, ?_, ?_⟩
  · intro fn h
    simp [validate_file, h]
  · intro fn hne hmem
    exact validate_file_of_mem fn hne hmem
  · intro fn hmem
    constructor
    · by_cases hne : fn = ""
      · simp [validate_file, hne]
      · simp [validate_file, if_neg hne, if_neg hmem]
    · intro hne
      exact validate_file_msg_infix fn hne hmem

/-- Witness for C2: concrete runs through all three validation outcomes. -/
theorem validate_file_spec_witness :
    (validate_file "").1 = false ∧
    validate_file "a.png" = (true, ".png") ∧
    ((validate_file "photo.exe").1 = false ∧
      ∃ a b : String, (validate_file "photo.exe").2 = a ++ ".exe" ++ b) := by
  refine ⟨validate_file_spec.1 "" rfl, ?_, ?_⟩
  · have h := validate_file_spec.2.1 "a.png" (by decide) (by decide)
    have hext : pyLower (pySuffix "a.png") = ".png" := by decide
    rw [hext] at h
    exact h
  · have h := validate_file_spec.2.2 "photo.exe" (by decide)
    have hext : pyLower (pySuffix "photo.exe") = ".exe" := by decide
    rw [hext] at h
    exact ⟨h.1, h.2 (by decide)⟩

/-- C7: the table conversion returns `("", "", 0, 0)` whenever the
recognition result set is empty or no line survives the non-empty-text
filtering, including empty input text on the text-to-table endpoint. -/
theorem convert_to_table_empty (res : List OCRItem) (delim : String) :
    (res = [] ∨ collectedLines res = [] →
      convert_to_table res delim = ⟨"", "", 0, 0⟩) ∧
    convert_text_to_table "" delim = ⟨"", "", 0, 0⟩ := by
  constructor
  · rintro (h | h)
    · simp [convert_to_table, h]
    · by_cases hres : res = []
      · simp [convert_to_table, hres]
      · simp [convert_to_table, if_neg hres, h]
  · have h0 : ((pySplitChar '\n' (pyStrip ("" : String).data)).filter
        (fun l => !(pyStrip l).isEmpty)).map
        (fun l => ({ text := ⟨l⟩, confidence := 1, bbox := [] } : OCRItem))
        = [] := by decide
    simp only [convert_text_to_table, h0]
    simp [convert_to_table]

/-- Witness for C7. -/
theorem convert_to_table_empty_witness :
    convert_to_table [] "auto" = ⟨"", "", 0, 0⟩ ∧
    convert_text_to_table "" "auto" = ⟨"", "", 0, 0⟩ :=
  ⟨(convert_to_table_empty [] "auto").1 (Or.inl rfl),
    (convert_to_table_empty [] "auto").2⟩

theorem buildRows_length (delim : String) (lines : List String) :
    (buildRows delim lines).length =
      (lines.filter (fun l => !(cellsOfLine delim l).isEmpty)).length := by
  induction lines with
  | nil => rfl
  | cons l t ih =>
    simp only [buildRows, List.filterMap_cons, List.filter_cons] at *
    by_cases h : cellsOfLine delim l = []
    · simp [h, ih]
    · simp [h, ih]

theorem cellsOfLine_mem_ne (d l : String) : ∀ c ∈ cellsOfLine d l, c ≠ "" := by
  intro c hc
  simp only [cellsOfLine, List.mem_map, List.mem_filter] at hc
  obtain ⟨c', ⟨_, hc2⟩, rfl⟩ := hc
  intro h
  have hdata : c' = [] := by
    have := congrArg String.data h
    simpa using this
  rw [hdata] at hc2
  simp at hc2

theorem buildRows_mem (d : String) (lines : List String) :
    ∀ row ∈ buildRows d lines, row ≠ [] ∧ ∃ l ∈ lines, row = cellsOfLine d l := by
  intro row hrow
  simp only [buildRows, List.mem_filterMap] at hrow
  obtain ⟨l, hl, hf⟩ := hrow
  by_cases h : cellsOfLine d l = []
  · simp [h] at hf
  · simp [h] at hf
    exact ⟨hf ▸ h, l, hl, hf.symm⟩

/-- C10: a line whose split cells all trim to empty contributes no row; the
returned row count equals the number of lines with at least one non-empty
trimmed cell, and every emitted row contains a non-empty cell. -/
theorem row_count_spec (res : List OCRItem) (delim : String) :
    (convert_to_table res delim).rows =
      ((collectedLines res).filter
        (fun l => !(cellsOfLine (resolvedDelim res delim) l).isEmpty)).length ∧
    (∀ row ∈ buildRows (resolvedDelim res delim) (collectedLines res),
      ∃ c ∈ row, c ≠ "") := by
  constructor
  · by_cases h1 : res = []
    · subst h1
      simp [convert_to_table, collectedLines]
    · by_cases h2 : collectedLines res = []
      · simp [convert_to_table, if_neg h1, h2]
      · rw [← buildRows_length]
        by_cases h3 : buildRows (resolvedDelim res delim) (collectedLines res) = []
        · simp only [convert_to_table, if_neg h1, if_neg h2, resolvedDelim] at *
          simp [h3]
        · simp only [convert_to_table, if_neg h1, if_neg h2, resolvedDelim] at *
          simp [h3, padAll]
  · intro row hrow
    obtain ⟨hne, l, _, hcells⟩ :=
      buildRows_mem (resolvedDelim res delim) (collectedLines res) row hrow
    cases hr : row with
    | nil => exact absurd hr hne
    | cons c cs =>
      refine ⟨c, by simp, ?_⟩
      have := cellsOfLine_mem_ne (resolvedDelim res delim) l
      rw [← hcells] at this
      exact this c (by simp [hr])

/-- Witness for C10. -/
theorem row_count_spec_witness :
    (convert_to_table [⟨"x  y", 1, []⟩] "auto").rows = 1 ∧
    ∃ c ∈ (["x", "y"] : List String), c ≠ "" := by
  have h := row_count_spec [⟨"x  y", 1, []⟩] "auto"
  refine ⟨h.1.trans (by decide), ?_⟩
  exact h.2 ["x", "y"] (by decide)

theorem foldl_max_le_init (l : List (List String)) (a : Nat) :
    a ≤ l.foldl (fun m r => max m r.length) a := by
  induction l generalizing a with
  | nil => simp
  | cons r t ih =>
    simp only [List.foldl_cons]
    exact le_trans (Nat.le_max_left a r.length) (ih (max a r.length))

theorem length_le_foldl_max (l : List (List String)) (a : Nat) (r : List String)
    (hr : r ∈ l) : r.length ≤ l.foldl (fun m x => max m x.length) a := by
  induction l generalizing a with
  | nil => simp at hr
  | cons x t ih =>
    simp only [List.foldl_cons]
    rcases List.mem_cons.1 hr with h | h
    · subst h
      exact le_trans (Nat.le_max_right a r.length) (foldl_max_le_init t _)
    · exact ih _ h

theorem length_le_maxColsOf (g : List (List String)) (r : List String)
    (hr : r ∈ g) : r.length ≤ maxColsOf g :=
  length_le_foldl_max g 0 r hr

theorem foldl_max_const (l : List (List String)) (n : Nat)
    (hl : ∀ r ∈ l, r.length = n) (hne : l ≠ []) (a : Nat) :
    l.foldl (fun m r => max m r.length) a = max a n := by
  induction l generalizing a with
  | nil => exact absurd rfl hne
  | cons r t ih =>
    simp only [List.foldl_cons]
    rw [hl r (List.mem_cons_self r t)]
    by_cases ht : t = []
    · subst ht; rfl
    · rw [ih (fun x hx => hl x (List.mem_cons_of_mem r hx)) ht, Nat.max_assoc,
        Nat.max_self]

theorem padRow_length (n : Nat) (r : List String) (h : r.length ≤ n) :
    (padRow n r).length = n := by
  simp only [padRow, List.length_append, List.length_replicate]
  omega

theorem padAll_row_length (g : List (List String)) :
    ∀ r ∈ padAll g, r.length = maxColsOf g := by
  intro r hr
  simp only [padAll, List.mem_map] at hr
  obtain ⟨r₀, hr₀, rfl⟩ := hr
  exact padRow_length _ _ (length_le_maxColsOf g r₀ hr₀)

theorem maxColsOf_padAll (g : List (List String)) :
    maxColsOf (padAll g) = maxColsOf g := by
  by_cases hg : g = []
  · subst hg; rfl
  · have hne : padAll g ≠ [] := by
      simp only [padAll]
      exact fun h => hg (List.map_eq_nil_iff.1 h)
    have := foldl_max_const (padAll g) (maxColsOf g) (padAll_row_length g) hne 0
    simpa [maxColsOf] using this

theorem padAll_idem (g : List (List String)) : padAll (padAll g) = padAll g := by
  have h1 : padAll (padAll g) = (padAll g).map (padRow (maxColsOf g)) := by
    show (padAll g).map (padRow (maxColsOf (padAll g))) = _
    rw [maxColsOf_padAll]
  rw [h1]
  have h2 : ∀ r ∈ padAll g, padRow (maxColsOf g) r = r := by
    intro r hr
    have := padAll_row_length g r hr
    simp [padRow, this]
  calc (padAll g).map (padRow (maxColsOf g))
      = (padAll g).map id := List.map_congr_left h2
    _ = padAll g := List.map_id _

theorem padAll_tableGrid (res : List OCRItem) (delim : String) :
    padAll (tableGrid res delim) = tableGrid res delim := by
  by_cases h1 : res = []
  · simp [tableGrid, h1]; rfl
  · by_cases h2 : collectedLines res = []
    · simp [tableGrid, if_neg h1, h2]; rfl
    · by_cases h3 : buildRows
          (if delim = "auto" then autoDelim (collectedLines res) else delim)
          (collectedLines res) = []
      · simp only [tableGrid, if_neg h1, if_neg h2, h3, ite_true]
        rfl
      · simp only [tableGrid, if_neg h1, if_neg h2, if_neg h3]
        exact padAll_idem _

/-- C8: the grid the heuristic emits is already padded (`padAll` fixes it),
so running the pad-and-convert step a second time on it produces the
identical Markdown table. -/
theorem markdown_idempotent (res : List OCRItem) (delim : String) :
    padAll (tableGrid res delim) = tableGrid res delim ∧
    mdTable (padAll (tableGrid res delim))
        (maxColsOf (padAll (tableGrid res delim))) =
      mdTable (tableGrid res delim) (maxColsOf (tableGrid res delim)) := by
  have h := padAll_tableGrid res delim
  exact ⟨h, by rw [h]⟩

theorem splitFirst_single_nil (c : Char) : splitFirst [c] [] = none := rfl

theorem splitFirst_single_cons (c b : Char) (bs : List Char) :
    splitFirst [c] (b :: bs) =
      if c = b then some ([], bs)
      else (splitFirst [c] bs).map (fun p => (b :: p.1, p.2)) := by
  by_cases h : c = b
  · simp [splitFirst, dropSep, h]
  · simp [splitFirst, dropSep, h]

theorem pySplitStr_cons_single (c b : Char) (bs : List Char) :
    pySplitStr [c] (b :: bs) =
      if c = b then [] :: pySplitStr [c] bs
      else consFirst b (pySplitStr [c] bs) := by
  have hsep : ([c] : List Char) ≠ [] := by simp
  have hL : pySplitStr [c] (b :: bs) =
      splitFuel (bs.length + 2) [c] (b :: bs) := by
    simp only [pySplitStr, if_neg hsep, List.length_cons]
  have hR : pySplitStr [c] bs = splitFuel (bs.length + 1) [c] bs := by
    simp only [pySplitStr, if_neg hsep]
  rw [hL, hR]
  by_cases h : c = b
  · rw [if_pos h]
    show (match splitFirst [c] (b :: bs) with
      | none => [b :: bs]
      | some p => p.1 :: splitFuel (bs.length + 1) [c] p.2) = _
    rw [splitFirst_single_cons, if_pos h]
  · rw [if_neg h]
    have hstep : splitFuel (bs.length + 2) [c] (b :: bs) =
        match splitFirst [c] bs with
        | none => [b :: bs]
        | some p => (b :: p.1) :: splitFuel (bs.length + 1) [c] p.2 := by
      show (match splitFirst [c] (b :: bs) with
        | none => [b :: bs]
        | some p => p.1 :: splitFuel (bs.length + 1) [c] p.2) = _
      rw [splitFirst_single_cons, if_neg h]
      cases splitFirst [c] bs with
      | none => rfl
      | some p => rfl
    rw [hstep]
    cases hf : splitFirst [c] bs with
    | none =>
      have hbs : splitFuel (bs.length + 1) [c] bs = [bs] := by
        cases bs with
        | nil => rfl
        | cons x xs =>
          show (match splitFirst [c] (x :: xs) with
            | none => [x :: xs]
            | some p => p.1 :: splitFuel (xs.length + 1) [c] p.2) = _
          rw [hf]
      rw [hbs]
      rfl
    | some p =>
      have hlen := splitFirst_length hf
      simp only [List.length_singleton] at hlen
      have hbs : splitFuel (bs.length + 1) [c] bs =
          p.1 :: splitFuel bs.length [c] p.2 := by
        cases bs with
        | nil =>
          rw [splitFirst_single_nil] at hf
          exact absurd hf (by simp)
        | cons x xs =>
          show (match splitFirst [c] (x :: xs) with
            | none => [x :: xs]
            | some q => q.1 :: splitFuel (xs.length + 1) [c] q.2) = _
          rw [hf]
          rfl
      show (b :: p.1) :: splitFuel (bs.length + 1) [c] p.2 =
        consFirst b (splitFuel (bs.length + 1) [c] bs)
      rw [hbs]
      have hfi : splitFuel (bs.length + 1) [c] p.2 =
          splitFuel bs.length [c] p.2 := by
        apply splitFuel_fuel_irrel [c] hsep
        · omega
        · omega
      rw [hfi]
      rfl

theorem pySplitStr_single (c : Char) (s : List Char) :
    pySplitStr [c] s = pySplitChar c s := by
  induction s with
  | nil => rfl
  | cons b bs ih =>
    rw [pySplitStr_cons_single]
    by_cases h : c = b
    · simp only [if_pos h, ih, pySplitChar, if_pos h.symm]
    · simp only [if_neg h, ih, pySplitChar, if_neg (Ne.symm h)]

theorem splitCells_tab (line : String) :
    splitCells "\t" line = splitCells "tab" line := by
  unfold splitCells
  rw [if_neg (by decide : ("\t" : String) ≠ "space"),
    if_neg (by decide : ("\t" : String) ≠ "tab"),
    if_neg (by decide : ("\t" : String) ≠ "comma"),
    if_neg (by decide : ("tab" : String) ≠ "space"),
    if_pos (rfl : ("tab" : String) = "tab"),
    show ("\t" : String).data = ['\t'] from rfl, pySplitStr_single]

theorem splitCells_comma (line : String) :
    splitCells "," line = splitCells "comma" line := by
  unfold splitCells
  rw [if_neg (by decide : ("," : String) ≠ "space"),
    if_neg (by decide : ("," : String) ≠ "tab"),
    if_neg (by decide : ("," : String) ≠ "comma"),
    if_neg (by decide : ("comma" : String) ≠ "space"),
    if_neg (by decide : ("comma" : String) ≠ "tab"),
    if_pos (rfl : ("comma" : String) = "comma"),
    show ("," : String).data = [','] from rfl, pySplitStr_single]

theorem cellsOfLine_congr {d1 d2 : String}
    (h : ∀ l : String, splitCells d1 l = splitCells d2 l) (l : String) :
    cellsOfLine d1 l = cellsOfLine d2 l := by
  unfold cellsOfLine
  rw [h l]

theorem buildRows_congr {d1 d2 : String}
    (h : ∀ l : String, cellsOfLine d1 l = cellsOfLine d2 l)
    (lines : List String) : buildRows d1 lines = buildRows d2 lines := by
  unfold buildRows
  induction lines with
  | nil => rfl
  | cons l t ih => simp only [List.filterMap_cons, h l, ih]

theorem convert_to_table_delim_eq (res : List OCRItem) (d1 d2 : String)
    (h : ∀ l : String, cellsOfLine (resolvedDelim res d1) l =
      cellsOfLine (resolvedDelim res d2) l) :
    convert_to_table res d1 = convert_to_table res d2 := by
  unfold convert_to_table
  by_cases h1 : res = []
  · simp [h1]
  · simp only [if_neg h1]
    by_cases h2 : collectedLines res = []
    · simp [h2]
    · simp only [if_neg h2]
      have hbr : buildRows
          (if d1 = "auto" then autoDelim (collectedLines res) else d1)
          (collectedLines res) =
        buildRows (if d2 = "auto" then autoDelim (collectedLines res) else d2)
          (collectedLines res) := by
        apply buildRows_congr
        intro l
        have := h l
        unfold resolvedDelim at this
        exact this
      rw [hbr]

theorem autoDelim_tab {lines : List String}
    (h : 2 * tabTotal lines > lines.length) : autoDelim lines = "\t" := by
  simp [autoDelim, h]

theorem autoDelim_comma {lines : List String}
    (h1 : ¬ 2 * tabTotal lines > lines.length)
    (h2 : 2 * commaTotal lines > lines.length) : autoDelim lines = "," := by
  simp [autoDelim, h1, h2]

theorem autoDelim_space {lines : List String}
    (h1 : ¬ 2 * tabTotal lines > lines.length)
    (h2 : ¬ 2 * commaTotal lines > lines.length) :
    autoDelim lines = "space" := by
  simp only [autoDelim, if_neg h1, if_neg h2, ite_self]

theorem length_le_sum_counts (f : String → Nat) (l : List String)
    (h : ∀ x ∈ l, 1 ≤ f x) : l.length ≤ (l.map f).sum := by
  induction l with
  | nil => simp
  | cons x t ih =>
    simp only [List.map_cons, List.sum_cons, List.length_cons]
    have h1 := h x (List.mem_cons_self x t)
    have h2 := ih (fun y hy => h y (List.mem_cons_of_mem x hy))
    omega

theorem sum_counts_zero (f : String → Nat) (l : List String)
    (h : ∀ x ∈ l, f x = 0) : (l.map f).sum = 0 := by
  induction l with
  | nil => rfl
  | cons x t ih =>
    simp [h x (List.mem_cons_self x t),
      ih (fun y hy => h y (List.mem_cons_of_mem x hy))]

/-- C1: with delimiter hint `auto` on a non-empty collected line list, the
heuristic behaves like explicit tab splitting when the total tab count
exceeds half the line count, else like comma splitting when the comma count
exceeds half the line count, else like the multi-space strategy; in
particular, lines that each contain a tab (and the comma-dominant, tab-free
case) resolve as claimed. -/
theorem auto_detection (res : List OCRItem)
    (hne : collectedLines res ≠ []) :
    (2 * tabTotal (collectedLines res) > (collectedLines res).length →
      convert_to_table res "auto" = convert_to_table res "tab") ∧
    (¬ 2 * tabTotal (collectedLines res) > (collectedLines res).length →
      2 * commaTotal (collectedLines res) > (collectedLines res).length →
      convert_to_table res "auto" = convert_to_table res "comma") ∧
    (¬ 2 * tabTotal (collectedLines res) > (collectedLines res).length →
      ¬ 2 * commaTotal (collectedLines res) > (collectedLines res).length →
      convert_to_table res "auto" = convert_to_table res "space") ∧
    ((∀ l ∈ collectedLines res, '\t' ∈ l.data) →
      convert_to_table res "auto" = convert_to_table res "tab") ∧
    ((∀ l ∈ collectedLines res, '\t' ∉ l.data) →
      2 * commaTotal (collectedLines res) > (collectedLines res).length →
      convert_to_table res "auto" = convert_to_table res "comma") := by
  have htab : 2 * tabTotal (collectedLines res) > (collectedLines res).length →
      convert_to_table res "auto" = convert_to_table res "tab" := by
    intro h
    apply convert_to_table_delim_eq
    intro l
    apply cellsOfLine_congr
    intro l'
    have e1 : resolvedDelim res "auto" = "\t" := by
      unfold resolvedDelim
      rw [if_pos rfl, autoDelim_tab h]
    have e2 : resolvedDelim res "tab" = "tab" := by
      unfold resolvedDelim
      rw [if_neg (by decide : ("tab" : String) ≠ "auto")]
    rw [e1, e2]
    exact splitCells_tab l'
  have hcomma : ¬ 2 * tabTotal (collectedLines res) > (collectedLines res).length →
      2 * commaTotal (collectedLines res) > (collectedLines res).length →
      convert_to_table res "auto" = convert_to_table res "comma" := by
    intro h1 h2
    apply convert_to_table_delim_eq
    intro l
    apply cellsOfLine_congr
    intro l'
    have e1 : resolvedDelim res "auto" = "," := by
      unfold resolvedDelim
      rw [if_pos rfl, autoDelim_comma h1 h2]
    have e2 : resolvedDelim res "comma" = "comma" := by
      unfold resolvedDelim
      rw [if_neg (by decide : ("comma" : String) ≠ "auto")]
    rw [e1, e2]
    exact splitCells_comma l'
  refine ⟨htab, hcomma, ?_, ?_, ?_⟩
  · intro h1 h2
    apply convert_to_table_delim_eq
    intro l
    apply cellsOfLine_congr
    intro l'
    have e1 : resolvedDelim res "auto" = "space" := by
      unfold resolvedDelim
      rw [if_pos rfl, autoDelim_space h1 h2]
    have e2 : resolvedDelim res "space" = "space" := by
      unfold resolvedDelim
      rw [if_neg (by decide : ("space" : String) ≠ "auto")]
    rw [e1, e2]
  · intro h
    apply htab
    have hct : ∀ l ∈ collectedLines res, 1 ≤ l.data.count '\t' := by
      intro l hl
      have := h l hl
      exact List.count_pos_iff.2 this
    have hsum := length_le_sum_counts (fun l => l.data.count '\t')
      (collectedLines res) hct
    have hpos : 0 < (collectedLines res).length :=
      List.length_pos.2 hne
    unfold tabTotal
    omega
  · intro h h2
    apply hcomma _ h2
    have hz : tabTotal (collectedLines res) = 0 := by
      apply sum_counts_zero
      intro l hl
      exact List.count_eq_zero.2 (h l hl)
    omega

/-- Witness for C1: two tab-separated lines make auto mode behave exactly
like explicit tab splitting. -/
theorem auto_detection_witness :
    convert_to_table [⟨"a\tb", 1, []⟩, ⟨"c\td", 1, []⟩] "auto" =
      convert_to_table [⟨"a\tb", 1, []⟩, ⟨"c\td", 1, []⟩] "tab" :=
  (auto_detection [⟨"a\tb", 1, []⟩, ⟨"c\td", 1, []⟩] (by decide)).1 (by decide)

theorem string_mk_data (s : String) : (⟨s.data⟩ : String) = s := rfl

theorem csvScan_quoted_char {c : Char} (h : c ≠ '\"') (field : List Char)
    (row : List String) (acc : List (List String)) (cs : List Char) :
    csvScan .quoted field row acc (c :: cs) =
      csvScan .quoted (c :: field) row acc cs := by
  simp [csvScan, h]

theorem csvScan_quote_open (row : List String) (acc : List (List String))
    (cs : List Char) :
    csvScan .plain [] row acc ('\"' :: cs) =
      csvScan .quoted [] row acc cs := by
  simp [csvScan]

theorem csvScan_quote_close (field : List Char) (row : List String)
    (acc : List (List String)) (cs : List Char) :
    csvScan .quoted field row acc ('\"' :: cs) =
      csvScan .quoteSeen field row acc cs := by
  simp [csvScan]

theorem csvScan_quote_pair (field : List Char) (row : List String)
    (acc : List (List String)) (cs : List Char) :
    csvScan .quoteSeen field row acc ('\"' :: cs) =
      csvScan .quoted ('\"' :: field) row acc cs := by
  simp [csvScan]

theorem csvScan_plain_comma (field : List Char) (row : List String)
    (acc : List (List String)) (cs : List Char) :
    csvScan .plain field row acc (',' :: cs) =
      csvScan .plain [] ((⟨field.reverse⟩ : String) :: row) acc cs := by
  simp [csvScan]

theorem csvScan_qs_comma (field : List Char) (row : List String)
    (acc : List (List String)) (cs : List Char) :
    csvScan .quoteSeen field row acc (',' :: cs) =
      csvScan .plain [] ((⟨field.reverse⟩ : String) :: row) acc cs := by
  simp [csvScan]

theorem csvScan_plain_crlf (field : List Char) (row : List String)
    (acc : List (List String)) (cs : List Char) :
    csvScan .plain field row acc ('\r' :: '\n' :: cs) =
      csvScan .plain [] [] (recordOf field row :: acc) cs := by
  simp [csvScan]

theorem csvScan_qs_crlf (field : List Char) (row : List String)
    (acc : List (List String)) (cs : List Char) :
    csvScan .quoteSeen field row acc ('\r' :: '\n' :: cs) =
      csvScan .plain [] [] (recordOf field row :: acc) cs := by
  simp [csvScan]

theorem csvScan_plain_char {c : Char} (h1 : c ≠ '\"') (h2 : c ≠ ',')
    (h3 : c ≠ '\r') (h4 : c ≠ '\n') (field : List Char) (row : List String)
    (acc : List (List String)) (cs : List Char) :
    csvScan .plain field row acc (c :: cs) =
      csvScan .plain (c :: field) row acc cs := by
  simp [csvScan, h1, h2, h3, h4]

theorem escQuotes_cons (c : Char) (cs : List Char) :
    escQuotes (c :: cs) =
      if c = '\"' then '\"' :: '\"' :: escQuotes cs
      else c :: escQuotes cs := rfl

theorem csvScan_escQuotes (f : List Char) (rest : List Char)
    (field : List Char) (row : List String) (acc : List (List String)) :
    csvScan .quoted field row acc (escQuotes f ++ rest) =
      csvScan .quoted (f.reverse ++ field) row acc rest := by
  induction f generalizing field with
  | nil => simp [escQuotes]
  | cons c cf ih =>
    rw [escQuotes_cons]
    by_cases h : c = '\"'
    · subst h
      rw [if_pos rfl]
      show csvScan .quoted field row acc
        ('\"' :: '\"' :: (escQuotes cf ++ rest)) = _
      rw [csvScan_quote_close, csvScan_quote_pair, ih]
      simp
    · rw [if_neg h]
      show csvScan .quoted field row acc (c :: (escQuotes cf ++ rest)) = _
      rw [csvScan_quoted_char h, ih]
      simp

theorem not_needsQuote {f : List Char} (h : needsQuote f = false) :
    ∀ c ∈ f, c ≠ ',' ∧ c ≠ '\"' ∧ c ≠ '\r' ∧ c ≠ '\n' := by
  intro c hc
  have h2 : ¬ (c == ',' || c == '\"' || c == '\r' || c == '\n') = true := by
    intro hcon
    have hq : needsQuote f = true := by
      simp only [needsQuote, List.any_eq_true]
      exact ⟨c, hc, hcon⟩
    rw [h] at hq
    exact Bool.false_ne_true hq
  simp only [Bool.or_eq_true, beq_iff_eq] at h2
  push_neg at h2
  exact ⟨h2.1.1.1, h2.1.1.2, h2.1.2, h2.2⟩

theorem csvScan_plain_run (f : List Char)
    (hf : ∀ c ∈ f, c ≠ ',' ∧ c ≠ '\"' ∧ c ≠ '\r' ∧ c ≠ '\n') :
    ∀ (rest field : List Char) (row : List String)
      (acc : List (List String)),
      csvScan .plain field row acc (f ++ rest) =
        csvScan .plain (f.reverse ++ field) row acc rest := by
  induction f with
  | nil =>
    intro rest field row acc
    simp
  | cons c cf ih =>
    intro rest field row acc
    obtain ⟨h2, h1, h3, h4⟩ := hf c (List.mem_cons_self c cf)
    show csvScan .plain field row acc (c :: (cf ++ rest)) = _
    rw [csvScan_plain_char h1 h2 h3 h4,
      ih (fun x hx => hf x (List.mem_cons_of_mem c hx)) rest (c :: field)]
    simp

theorem csvScan_field_comma (f : String) (X : List Char)
    (row : List String) (acc : List (List String)) :
    csvScan .plain [] row acc (encField f ++ ',' :: X) =
      csvScan .plain [] (f :: row) acc X := by
  unfold encField
  by_cases hq : needsQuote f.data
  · rw [if_pos hq]
    show csvScan .plain [] row acc
      ('\"' :: ((escQuotes f.data ++ ['\"']) ++ (',' :: X))) = _
    rw [csvScan_quote_open, List.append_assoc, List.singleton_append,
      csvScan_escQuotes, csvScan_quote_close, csvScan_qs_comma]
    simp [string_mk_data]
  · rw [if_neg hq]
    rw [csvScan_plain_run f.data (not_needsQuote (by simpa using hq))
      (',' :: X) [] row acc, csvScan_plain_comma]
    simp [string_mk_data]

theorem csvScan_field_crlf (f : String) (X : List Char)
    (row : List String) (acc : List (List String)) :
    csvScan .plain [] row acc (encField f ++ '\r' :: '\n' :: X) =
      csvScan .plain [] [] ((row.reverse ++ [f]) :: acc) X := by
  unfold encField
  by_cases hq : needsQuote f.data
  · rw [if_pos hq]
    show csvScan .plain [] row acc
      ('\"' :: ((escQuotes f.data ++ ['\"']) ++ ('\r' :: '\n' :: X))) = _
    rw [csvScan_quote_open, List.append_assoc, List.singleton_append,
      csvScan_escQuotes, csvScan_quote_close, csvScan_qs_crlf]
    unfold recordOf
    simp [string_mk_data]
  · rw [if_neg hq]
    rw [csvScan_plain_run f.data (not_needsQuote (by simpa using hq))
      ('\r' :: '\n' :: X) [] row acc, csvScan_plain_crlf]
    unfold recordOf
    simp [string_mk_data]

theorem joinComma_cons_cons (x y : List Char) (ys : List (List Char)) :
    joinComma (x :: y :: ys) = x ++ ',' :: joinComma (y :: ys) := rfl

theorem csvScan_rowFields (r : List String) :
    r ≠ [] →
    ∀ (rest : List Char) (row : List String) (acc : List (List String)),
      csvScan .plain [] row acc
          (joinComma (r.map encField) ++ ('\r' :: '\n' :: rest)) =
        csvScan .plain [] [] ((row.reverse ++ r) :: acc) rest := by
  induction r with
  | nil =>
    intro hr
    exact absurd rfl hr
  | cons f r' ih =>
    intro _ rest row acc
    cases r' with
    | nil =>
      show csvScan .plain [] row acc
        (encField f ++ ('\r' :: '\n' :: rest)) = _
      rw [csvScan_field_crlf]
    | cons g r'' =>
      show csvScan .plain [] row acc
        ((encField f ++ ',' :: joinComma ((g :: r'').map encField)) ++
          ('\r' :: '\n' :: rest)) = _
      rw [List.append_assoc]
      show csvScan .plain [] row acc
        (encField f ++ ',' :: (joinComma ((g :: r'').map encField) ++
          ('\r' :: '\n' :: rest))) = _
      rw [csvScan_field_comma, ih (by simp) rest (f :: row) acc]
      have hrec : (f :: row).reverse ++ (g :: r'') =
          row.reverse ++ (f :: g :: r'') := by
        simp
      rw [hrec]

theorem csvScan_rows (g : List (List String)) (hg : ∀ r ∈ g, r ≠ []) :
    ∀ acc : List (List String),
      csvScan .plain [] [] acc ((g.map writeRow).flatten) =
        acc.reverse ++ g := by
  induction g with
  | nil =>
    intro acc
    simp [csvScan]
  | cons r g' ih =>
    intro acc
    have hflat : ((r :: g').map writeRow).flatten =
        joinComma (r.map encField) ++
          ('\r' :: '\n' :: (g'.map writeRow).flatten) := by
      simp only [List.map_cons, List.flatten_cons, writeRow]
      simp [List.append_assoc]
    rw [hflat,
      csvScan_rowFields r (hg r (List.mem_cons_self r g')) _ [] acc]
    simp only [List.reverse_nil, List.nil_append]
    rw [ih (fun x hx => hg x (List.mem_cons_of_mem r hx)) (r :: acc)]
    simp

theorem csvParse_csvWrite (g : List (List String))
    (hg : ∀ r ∈ g, r ≠ []) : csvParse (csvWrite g) = g := by
  unfold csvParse csvWrite
  rw [show ((⟨(g.map writeRow).flatten⟩ : String)).data =
    (g.map writeRow).flatten from rfl]
  rw [csvScan_rows g hg []]
  rfl

theorem tableGrid_rows_ne (res : List OCRItem) (delim : String) :
    ∀ r ∈ tableGrid res delim, r ≠ [] := by
  intro r hr
  unfold tableGrid at hr
  by_cases h1 : res = []
  · simp [h1] at hr
  · rw [if_neg h1] at hr
    by_cases h2 : collectedLines res = []
    · simp [h2] at hr
    · simp only [if_neg h2] at hr
      by_cases h3 : buildRows
          (if delim = "auto" then autoDelim (collectedLines res) else delim)
          (collectedLines res) = []
      · simp [h3] at hr
      · simp only [if_neg h3, padAll, List.mem_map] at hr
        obtain ⟨r₀, hr₀, rfl⟩ := hr
        have hne := (buildRows_mem _ _ r₀ hr₀).1
        simp only [padRow, ne_eq, List.append_eq_nil]
        intro hcon
        exact hne hcon.1

theorem convert_csv_eq (res : List OCRItem) (delim : String) :
    (convert_to_table res delim).csv = csvWrite (tableGrid res delim) := by
  unfold convert_to_table tableGrid
  by_cases h1 : res = []
  · simp [h1]
    rfl
  · simp only [if_neg h1]
    by_cases h2 : collectedLines res = []
    · simp [h2]
      rfl
    · simp only [if_neg h2]
      by_cases h3 : buildRows
          (if delim = "auto" then autoDelim (collectedLines res) else delim)
          (collectedLines res) = []
      · simp [h3]
        rfl
      · simp [if_neg h3]

/-- C3: for a table built with delimiter `tab` whose cells are all non-empty
after trimming, parsing the produced CSV string under standard CSV rules
yields back exactly the padded grid the heuristic constructed. -/
theorem csv_roundtrip (res : List OCRItem)
    (h : ∀ line ∈ collectedLines res, ∀ c ∈ pySplitChar '\t' line.data,
      pyStrip c ≠ []) :
    csvParse (convert_to_table res "tab").csv = tableGrid res "tab" := by
  rw [convert_csv_eq]
  exact csvParse_csvWrite _ (tableGrid_rows_ne res "tab")

/-- Witness for C3. -/
theorem csv_roundtrip_witness :
    csvParse (convert_to_table [⟨"a\tb", 1, []⟩, ⟨"c\td", 1, []⟩] "tab").csv =
      tableGrid [⟨"a\tb", 1, []⟩, ⟨"c\td", 1, []⟩] "tab" :=
  csv_roundtrip [⟨"a\tb", 1, []⟩, ⟨"c\td", 1, []⟩] (by decide)

theorem confidence_eq (scores : List ℚ) (i : Nat) :
    (if scores.getD i 1 ≠ 0 then scores.getD i 1 else 1) =
      specConfidence scores i := by
  unfold specConfidence
  by_cases h : i < scores.length
  · rw [if_pos h]
    by_cases h0 : scores.getD i 1 = 0
    · rw [if_neg (not_not_intro h0), if_pos h0]
    · rw [if_pos h0, if_neg h0]
  · rw [if_neg h]
    have hd : scores.getD i 1 = 1 :=
      List.getD_eq_default _ _ (by omega)
    rw [hd]
    simp

theorem bbox_eq (boxes : List (List (List ℚ))) (i : Nat) :
    boxes.getD i [] = specBbox boxes i := by
  unfold specBbox
  by_cases h : i < boxes.length
  · rw [if_pos h]
  · rw [if_neg h, List.getD_eq_default _ _ (by omega)]

/-- C4 (amended): empty-text entries are filtered out; a missing score
defaults to 1.0, a present score is kept **unless it is zero (falsy), in
which case it is also replaced by 1.0**; missing geometry defaults to the
empty sequence. -/
theorem process_found_results_spec (texts : List String) (scores : List ℚ)
    (boxes : List (List (List ℚ))) :
    process_found_results texts scores boxes =
      (texts.enum.filter (fun p => !(p.2 == ""))).map (fun p =>
        (⟨p.2, specConfidence scores p.1, specBbox boxes p.1⟩ : OCRItem))
        := by
  unfold process_found_results
  generalize texts.enum = l
  induction l with
  | nil => rfl
  | cons p t ih =>
    simp only [List.filterMap_cons, List.filter_cons]
    by_cases h : p.2 = ""
    · rw [if_pos h,
        if_neg (show ¬((!(p.2 == "")) = true) from by simp [h])]
      exact ih
    · rw [if_neg h,
        if_pos (show (!(p.2 == "")) = true from by simp [h]),
        List.map_cons]
      show (⟨p.2, if scores.getD p.1 1 ≠ 0 then scores.getD p.1 1 else 1,
        boxes.getD p.1 []⟩ : OCRItem) :: List.filterMap _ t = _
      rw [confidence_eq, bbox_eq, ih]

/-- C4 counterexample: with `texts = ["a"]` and a score array `[0]` that is
*not* shorter than the text array, the emitted confidence is 1, not the
corresponding score 0 — refuting "otherwise the item's confidence is the
corresponding score". -/
theorem process_found_results_zero_score_cex :
    (process_found_results ["a"] [0] []).map (fun r => r.confidence) ≠
        [(0 : ℚ)] ∧
    (process_found_results ["a"] [0] []).map (fun r => r.confidence) =
        [(1 : ℚ)] := by
  constructor
  · intro h
    have : ((1 : ℚ)) = 0 := by
      simpa [process_found_results, List.enum] using h
    norm_num at this
  · simp [process_found_results, List.enum]

theorem zip_map_mem {α β : Type} (g : α → β) (l : List α) :
    ∀ p ∈ l.zip (l.map g), p.2 = g p.1 := by
  induction l with
  | nil =>
    intro p hp
    simp at hp
  | cons x t ih =>
    intro p hp
    simp only [List.map_cons, List.zip_cons_cons, List.mem_cons] at hp
    rcases hp with h | h
    · subst h
      rfl
    · exact ih p h

/-- C5: the batch endpoint returns `total = N`, one result entry per file,
`processed` = the number of successful entries, and each entry is the
success record (full payload) or failure record (error string) of its own
file — one failing file never aborts the others. -/
theorem ocr_batch_spec {F D : Type} (filenameOf : F → String)
    (recognize : F → Except String D) (files : List F) :
    (ocr_batch filenameOf recognize files).total = files.length ∧
    (ocr_batch filenameOf recognize files).results.length = files.length ∧
    (ocr_batch filenameOf recognize files).processed =
      ((ocr_batch filenameOf recognize files).results.filter
        (fun r => r.success)).length ∧
    ∀ p ∈ files.zip (ocr_batch filenameOf recognize files).results,
      (∀ d, recognize p.1 = .ok d →
        p.2 = ⟨filenameOf p.1, true, some d, none⟩) ∧
      (∀ e, recognize p.1 = .error e →
        p.2 = ⟨filenameOf p.1, false, none, some e⟩) := by
  have hres : (ocr_batch filenameOf recognize files).results =
      files.map (fun f =>
        match recognize f with
        | .ok d => (⟨filenameOf f, true, some d, none⟩ : BatchItem D)
        | .error e => ⟨filenameOf f, false, none, some e⟩) := rfl
  refine ⟨rfl, ?_, rfl, ?_⟩
  · rw [hres]
    simp
  · intro p hp
    rw [hres] at hp
    have hp2 := zip_map_mem _ files p hp
    constructor
    · intro d hd
      rw [hp2, hd]
    · intro e he
      rw [hp2, he]

/-- Witness for C5: a batch of three files with the second corrupt gives
`total = 3`, `processed = 2`, and the second entry is the failure record. -/
theorem ocr_batch_spec_witness :
    (ocr_batch id demoRecognize ["a", "b", "c"]).total = 3 ∧
    (ocr_batch id demoRecognize ["a", "b", "c"]).processed = 2 ∧
    (("b", (⟨"b", false, none, some "corrupt"⟩ : BatchItem Nat)) ∈
      ["a", "b", "c"].zip
        (ocr_batch id demoRecognize ["a", "b", "c"]).results) ∧
    (⟨"b", false, none, some "corrupt"⟩ : BatchItem Nat) =
      ⟨id "b", false, none, some "corrupt"⟩ := by
  have h := ocr_batch_spec id demoRecognize ["a", "b", "c"]
  have hm : ("b", (⟨"b", false, none, some "corrupt"⟩ : BatchItem Nat)) ∈
      ["a", "b", "c"].zip
        (ocr_batch id demoRecognize ["a", "b", "c"]).results := by decide
  have h4 := (h.2.2.2 _ hm).2 "corrupt" rfl
  exact ⟨h.1, h.2.2.1.trans (by decide), hm, h4⟩

theorem file_endpoint_fs {A : Type} (wrap : String) (fs0 : Finset String)
    (filename fileId : String) (proc : Except String A)
    (hfresh : ∀ ext : String, fileId ++ ext ∉ fs0) :
    (file_endpoint_model wrap fs0 filename fileId proc).fs = fs0 := by
  unfold file_endpoint_model
  by_cases hv : (validate_file filename).1 = true
  · rw [if_neg (not_not_intro hv)]
    cases proc with
    | ok a => simp [Finset.erase_insert (hfresh _)]
    | error e => simp [Finset.erase_insert (hfresh _)]
  · rw [if_pos hv]

/-- C6: every file-accepting endpoint deletes its scratch file on every
exit path — validation failure writes nothing, and success, handled error
and unexpected exception all reach the `finally` deletion — so no request
leaves its scratch file behind. -/
theorem scratch_cleanup {A : Type} (fs0 : Finset String)
    (filename fileId : String) (proc : Except String A)
    (hfresh : ∀ ext : String, fileId ++ ext ∉ fs0) :
    (ocr_recognize_model fs0 filename fileId proc).fs = fs0 ∧
    (ocr_to_table_model fs0 filename fileId proc).fs = fs0 ∧
    (∀ ext : String, fileId ++ ext ∉
      (ocr_recognize_model fs0 filename fileId proc).fs) ∧
    (∀ ext : String, fileId ++ ext ∉
      (ocr_to_table_model fs0 filename fileId proc).fs) := by
  have h1 := file_endpoint_fs "OCR 處理失敗: " fs0 filename fileId proc hfresh
  have h2 := file_endpoint_fs "表格轉換失敗: " fs0 filename fileId proc hfresh
  refine ⟨h1, h2, ?_, ?_⟩
  · intro ext
    show fileId ++ ext ∉ (file_endpoint_model "OCR 處理失敗: " fs0
      filename fileId proc).fs
    rw [h1]
    exact hfresh ext
  · intro ext
    show fileId ++ ext ∉ (file_endpoint_model "表格轉換失敗: " fs0
      filename fileId proc).fs
    rw [h2]
    exact hfresh ext

/-- Witness for C6. -/
theorem scratch_cleanup_witness :
    (ocr_recognize_model (∅ : Finset String) "a.png" "u1"
      (Except.ok (0 : Nat))).fs = ∅ ∧
    (ocr_to_table_model (∅ : Finset String) "a.png" "u1"
      (Except.ok (0 : Nat))).fs = ∅ :=
  ⟨(scratch_cleanup (∅ : Finset String) "a.png" "u1" (Except.ok 0)
      (fun _ => Finset.not_mem_empty _)).1,
    (scratch_cleanup (∅ : Finset String) "a.png" "u1" (Except.ok 0)
      (fun _ => Finset.not_mem_empty _)).2.1⟩

/-- C9: an upload whose filename fails validation yields HTTP 400 carrying
the validation message, performs no OCR processing and writes no scratch
file, and the exception handler renders the uniform envelope
`{success: false, error: message, status_code: 400}`; for a non-empty
filename the message names the rejected extension. -/
theorem invalid_upload_400 {A : Type} (fs0 : Finset String)
    (filename fileId : String) (proc : Except String A)
    (hinv : (validate_file filename).1 = false) :
    (ocr_recognize_model fs0 filename fileId proc).result =
      .error (400, (validate_file filename).2) ∧
    (ocr_recognize_model fs0 filename fileId proc).ocrInvoked = false ∧
    (ocr_recognize_model fs0 filename fileId proc).fs = fs0 ∧
    (ocr_to_table_model fs0 filename fileId proc).result =
      .error (400, (validate_file filename).2) ∧
    (ocr_to_table_model fs0 filename fileId proc).ocrInvoked = false ∧
    http_exception_handler 400 ((validate_file filename).2) =
      ⟨false, (validate_file filename).2, 400⟩ ∧
    (filename ≠ "" → ∃ a b : String, (validate_file filename).2 =
      a ++ pyLower (pySuffix filename) ++ b) := by
  have key : ∀ wrap : String,
      file_endpoint_model (A := A) wrap fs0 filename fileId proc =
        ⟨.error (400, (validate_file filename).2), fs0, false⟩ := by
    intro wrap
    unfold file_endpoint_model
    rw [if_pos (by simp [hinv])]
  refine ⟨?_, ?_, ?_, ?_, ?_, rfl, ?_⟩
  · show (file_endpoint_model "OCR 處理失敗: " fs0 filename fileId
      proc).result = _
    rw [key]
  · show (file_endpoint_model "OCR 處理失敗: " fs0 filename fileId
      proc).ocrInvoked = _
    rw [key]
  · show (file_endpoint_model "OCR 處理失敗: " fs0 filename fileId
      proc).fs = _
    rw [key]
  · show (file_endpoint_model "表格轉換失敗: " fs0 filename fileId
      proc).result = _
    rw [key]
  · show (file_endpoint_model "表格轉換失敗: " fs0 filename fileId
      proc).ocrInvoked = _
    rw [key]
  · intro hne
    have hmem : pyLower (pySuffix filename) ∉ allowed_extensions := by
      intro hmem
      have := validate_file_of_mem filename hne hmem
      rw [this] at hinv
      simp at hinv
    exact validate_file_msg_infix filename hne hmem

/-- Witness for C9: uploading `photo.exe`. -/
theorem invalid_upload_400_witness :
    (ocr_recognize_model (∅ : Finset String) "photo.exe" "u1"
      (Except.ok (0 : Nat))).result =
      Except.error (400, (validate_file "photo.exe").2) ∧
    (ocr_recognize_model (∅ : Finset String) "photo.exe" "u1"
      (Except.ok (0 : Nat))).ocrInvoked = false ∧
    (∃ a b : String, (validate_file "photo.exe").2 = a ++ ".exe" ++ b) := by
  have h := invalid_upload_400 (∅ : Finset String) "photo.exe" "u1"
    (Except.ok (0 : Nat)) (by decide)
  refine ⟨h.1, h.2.1, ?_⟩
  have h7 := h.2.2.2.2.2.2 (by decide)
  have he : pyLower (pySuffix "photo.exe") = ".exe" := by decide
  rw [he] at h7
  exact h7

end PaddleOCRService
